import Mathlib

/-!
Verification of `pkg/config/config.go` of GoogleCloudPlatform/netd.

The Go code is shallowly embedded: the pluggable kernel-interaction functions
(`RouteAdd`, `RuleDel`, the `iptabler` interface, ...) become state transformers
over an abstract state type `σ`, Go `error` values become an explicit inductive,
and the two places where config.go can panic (a failed `err.(syscall.Errno)` type
assertion and a method call on a nil `*iptables.Error`) become an explicit
`Outcome.panicked` result.
-/

set_option maxHeartbeats 1000000

namespace NetdConfig

/-- Model of a Go `error` value as classified by config.go: a `syscall.Errno`,
a go-iptables `*iptables.Error` (exit status plus message), or an error of any
other concrete type. -/
inductive GoErr where
  | errno (n : Nat)
  | iptErr (exitStatus : Nat) (msg : String)
  | other (msg : String)
  deriving DecidableEq, Repr

/-- `syscall.ESRCH` ("no such process"). -/
def ESRCH : Nat := 3

/-- `syscall.EEXIST` ("file exists"). -/
def EEXIST : Nat := 17

/-- `syscall.ENOENT` ("no such file or directory"). -/
def ENOENT : Nat := 2

/-- `syscall.ENOTEMPTY` ("directory not empty"). -/
def ENOTEMPTY : Nat := 39

/-- `os.IsExist err` on the modelled error values: true exactly for the errnos
Go's standard library classifies as "already exists" (`EEXIST`, `ENOTEMPTY`);
false on nil and on every non-errno error. -/
def osIsExist : Option GoErr → Bool
  | some (.errno n) => n = EEXIST || n = ENOTEMPTY
  | _ => false

/-- Model of Go `net.IPNet` as it occurs inside rule/route fields: an IPv4
address as a natural number below `2^32` plus a mask length. -/
structure IPNetM where
  ip : Nat
  maskLen : Nat
  deriving DecidableEq, Repr

/-- Model of `netlink.Rule` (vishvananda/netlink) with a representative set of
its fields. `priority` is the one field `isRuleEqualWithoutPriority` zeroes out;
the remaining fields stand for everything else `reflect.DeepEqual` compares. -/
structure Rule where
  priority : Int
  family : Int
  table : Nat
  mark : Nat
  mask : Option Nat
  tos : Nat
  tunID : Nat
  goTo : Nat
  src : Option IPNetM
  dst : Option IPNetM
  flow : Int
  iifName : String
  oifName : String
  invert : Bool
  deriving DecidableEq, Repr

/-- `isRuleEqualWithoutPriority` (config.go:188): copy both rules, zero the
priority of each copy, and compare the copies; `reflect.DeepEqual` on the
modelled struct is structural equality. -/
def isRuleEqualWithoutPriority (rule1 rule2 : Rule) : Bool :=
  let rule1Copy := { rule1 with priority := 0 }
  let rule2Copy := { rule2 with priority := 0 }
  decide (rule1Copy = rule2Copy)

/-- Result of a Go call that either terminates normally with a value or panics
(failed type assertion, nil-pointer method call). -/
inductive Outcome (α : Type) where
  | ok (a : α)
  | panicked
  deriving DecidableEq, Repr

/-- Model of `netlink.Route`: opaque to config.go, which only hands it to the
pluggable add/delete functions. -/
structure Route where
  dst : Option IPNetM
  gw : Nat
  linkIndex : Nat
  table : Nat
  scope : Nat
  deriving DecidableEq, Repr

/-- `IPRouteConfig` (config.go:55): a route plus pluggable `RouteAdd`/`RouteDel`
functions, modelled as state transformers over an abstract kernel state `σ`. -/
structure IPRouteConfig (σ : Type) where
  route : Route
  routeAdd : Route → σ → Option GoErr × σ
  routeDel : Route → σ → Option GoErr × σ

/-- `IPRouteConfig.Ensure` (config.go:120). Enabled: add, swallowing
`os.IsExist` errors. Disabled: delete; a non-nil error is cast by the unchecked
type assertion `err.(syscall.Errno)`, which panics when the error is not an
errno; the errno `ESRCH` is swallowed, any other errno is returned. -/
def IPRouteConfig.Ensure (r : IPRouteConfig σ) (enabled : Bool) (s : σ) :
    Outcome (Option GoErr) × σ :=
  if enabled then
    let (err, s') := r.routeAdd r.route s
    if osIsExist err then (.ok none, s') else (.ok err, s')
  else
    let (err, s') := r.routeDel r.route s
    match err with
    | none => (.ok none, s')
    | some (.errno n) =>
        if n = ESRCH then (.ok none, s') else (.ok (some (.errno n)), s')
    | some _ => (.panicked, s')

/-- `unix.AF_INET`. -/
def AF_INET : Int := 2

/-- `IPRuleConfig` (config.go:66): a rule plus pluggable
`RuleAdd`/`RuleDel`/`RuleList` functions over an abstract kernel state `σ`. -/
structure IPRuleConfig (σ : Type) where
  rule : Rule
  ruleAdd : Rule → σ → Option GoErr × σ
  ruleDel : Rule → σ → Option GoErr × σ
  ruleList : Int → σ → (Option GoErr × List Rule) × σ

/-- `IPRuleConfig.count` (config.go:171): list the AF_INET rules and count those
equal to the target rule ignoring priority; a listing error is returned with
count 0. -/
def IPRuleConfig.count (r : IPRuleConfig σ) (s : σ) : (Nat × Option GoErr) × σ :=
  let ((err, rules), s') := r.ruleList AF_INET s
  match err with
  | some e => ((0, some e), s')
  | none =>
      ((rules.countP (fun ru => isRuleEqualWithoutPriority ru r.rule), none), s')

/-- The convergence loop of `IPRuleConfig.ensureHelper` (config.go:150-167):
while the local counter differs from the target, delete one instance (counter
too high; the counter is decremented even when the delete failed) or add one
(counter too low; an `os.IsExist` add error is replaced by nil). The `err`
variable is overwritten by every iteration's operation result. -/
def ensureLoop (r : IPRuleConfig σ) (ruleCount ensureCount : Nat)
    (err : Option GoErr) (s : σ) : Option GoErr × σ :=
  if ruleCount = ensureCount then (err, s)
  else if ensureCount < ruleCount then
    let (e, s') := r.ruleDel r.rule s
    ensureLoop r (ruleCount - 1) ensureCount e s'
  else
    let (e, s') := r.ruleAdd r.rule s
    ensureLoop r (ruleCount + 1) ensureCount (if osIsExist e then none else e) s'
termination_by max ruleCount ensureCount - min ruleCount ensureCount
decreasing_by
  · omega
  · omega

/-- `IPRuleConfig.ensureHelper` (config.go:142): count the matching rules (a
count error is returned immediately), then run the convergence loop with the
error variable initially nil. -/
def IPRuleConfig.ensureHelper (r : IPRuleConfig σ) (ensureCount : Nat) (s : σ) :
    Option GoErr × σ :=
  match r.count s with
  | ((_, some e), s') => (some e, s')
  | ((ruleCount, none), s') => ensureLoop r ruleCount ensureCount none s'

/-- `IPRuleConfig.Ensure` (config.go:135): converge to one matching rule when
enabled, zero when disabled. -/
def IPRuleConfig.Ensure (r : IPRuleConfig σ) (enabled : Bool) (s : σ) :
    Option GoErr × σ :=
  if enabled then r.ensureHelper 1 s else r.ensureHelper 0 s

/-- `SysctlConfig` (config.go:46): key, on-value, default value and the
pluggable sysctl read/write function. -/
structure SysctlConfig (σ : Type) where
  key : String
  value : String
  defaultValue : String
  sysctlFunc : String → String → σ → (String × Option GoErr) × σ

/-- `SysctlConfig.Ensure` (config.go:108): write the on-value when enabled, the
default value when disabled; propagate the function's error unchanged. -/
def SysctlConfig.Ensure (c : SysctlConfig σ) (enabled : Bool) (s : σ) :
    Option GoErr × σ :=
  let value := if enabled then c.value else c.defaultValue
  let ((_, err), s') := c.sysctlFunc c.key value s
  (err, s')

/-- The `iptabler` interface (config.go:76), modelled as state transformers. -/
structure Iptabler (σ : Type) where
  newChain : String → String → σ → Option GoErr × σ
  clearChain : String → String → σ → Option GoErr × σ
  deleteChain : String → String → σ → Option GoErr × σ
  appendUnique : String → String → List String → σ → Option GoErr × σ
  delete : String → String → List String → σ → Option GoErr × σ

/-- `IPTablesChainSpec` (config.go:85). -/
structure IPTablesChainSpec (σ : Type) where
  tableName : String
  chainName : String
  isDefaultChain : Bool
  ipt : Iptabler σ

/-- `IPTablesRuleConfig` (config.go:92). -/
structure IPTablesRuleConfig (σ : Type) where
  spec : IPTablesChainSpec σ
  ruleSpecs : List (List String)
  ipt : Iptabler σ

/-- The benignity check applied to `NewChain` and `DeleteChain` errors
(config.go:200, 212): the error is swallowed iff it is an `*iptables.Error`
whose exit status is 1. -/
def iptStatusIsOne : GoErr → Bool
  | .iptErr st _ => st = 1
  | _ => false

/-- `IPTablesChainSpec.ensure` (config.go:196). Enabled: create the chain,
swallowing the status-1 "chain already exists" error. Disabled and not a
default chain: clear the chain (any error is fatal), then delete it, swallowing
the status-1 "chain already absent" error. Disabled default chain: no calls. -/
def IPTablesChainSpec.ensure (c : IPTablesChainSpec σ) (enabled : Bool) (s : σ) :
    Option GoErr × σ :=
  if enabled then
    match c.ipt.newChain c.tableName c.chainName s with
    | (none, s') => (none, s')
    | (some e, s') => if iptStatusIsOne e then (none, s') else (some e, s')
  else
    if !c.isDefaultChain then
      match c.ipt.clearChain c.tableName c.chainName s with
      | (some e, s') => (some e, s')
      | (none, s') =>
          match c.ipt.deleteChain c.tableName c.chainName s' with
          | (none, s'') => (none, s'')
          | (some e, s'') => if iptStatusIsOne e then (none, s'') else (some e, s'')
    else (none, s)

/-- Whether `p` is a prefix of `h`, on character lists. -/
def isPrefixList : List Char → List Char → Bool
  | [], _ => true
  | _ :: _, [] => false
  | p :: ps, h :: hs => p = h && isPrefixList ps hs

/-- Whether `pat` occurs as a contiguous sublist of `hay`. -/
def containsSub (hay pat : List Char) : Bool :=
  match hay with
  | [] => isPrefixList pat []
  | _ :: rest => isPrefixList pat hay || containsSub rest pat

/-- `strings.Contains`, on the underlying character lists. -/
def stringContains (s pat : String) : Bool :=
  containsSub s.toList pat.toList

/-- How `IPTablesRuleConfig.Ensure`'s disable loop (config.go:238-244) treats a
non-nil `Delete` error: benign (the loop continues), fatal (the error is
returned), or a nil-pointer panic — when the error is not an `*iptables.Error`,
the code still evaluates `eerr.Error()` on the nil result of the failed type
assertion. -/
inductive DelClass where
  | benign
  | fatal
  | nilPanic
  deriving DecidableEq, Repr

/-- The classification itself: an `*iptables.Error` with exit status 2 is
benign; otherwise a message containing "No chain/target/match" is benign;
any other `*iptables.Error` is fatal; any other error type panics. -/
def classifyDeleteErr : GoErr → DelClass
  | .iptErr st msg =>
      if st = 2 then .benign
      else if stringContains msg "No chain/target/match" then .benign
      else .fatal
  | _ => .nilPanic

/-- The disable loop of `IPTablesRuleConfig.Ensure` for a default chain
(config.go:237-245): delete each rule spec in order, acting on each error as
`classifyDeleteErr` prescribes. -/
def iptDeleteLoop (ipt : Iptabler σ) (table chain : String) :
    List (List String) → σ → Outcome (Option GoErr) × σ
  | [], s => (.ok none, s)
  | rs :: rest, s =>
      match ipt.delete table chain rs s with
      | (none, s') => iptDeleteLoop ipt table chain rest s'
      | (some e, s') =>
          match classifyDeleteErr e with
          | .benign => iptDeleteLoop ipt table chain rest s'
          | .fatal => (.ok (some e), s')
          | .nilPanic => (.panicked, s')

/-- The enable loop of `IPTablesRuleConfig.Ensure` (config.go:229-235): append
each rule spec uniquely, returning the first error. -/
def iptAppendLoop (ipt : Iptabler σ) (table chain : String) :
    List (List String) → σ → Option GoErr × σ
  | [], s => (none, s)
  | rs :: rest, s =>
      match ipt.appendUnique table chain rs s with
      | (none, s') => iptAppendLoop ipt table chain rest s'
      | (some e, s') => (some e, s')

/-- `IPTablesRuleConfig.Ensure` (config.go:223): ensure the chain itself, then
append every rule spec (enabled) or — only for a default chain — delete every
rule spec (disabled). -/
def IPTablesRuleConfig.Ensure (r : IPTablesRuleConfig σ) (enabled : Bool)
    (s : σ) : Outcome (Option GoErr) × σ :=
  match r.spec.ensure enabled s with
  | (some e, s') => (.ok (some e), s')
  | (none, s') =>
      if enabled then
        let (e, s'') := iptAppendLoop r.ipt r.spec.tableName r.spec.chainName r.ruleSpecs s'
        (.ok e, s'')
      else if r.spec.isDefaultChain then
        iptDeleteLoop r.ipt r.spec.tableName r.spec.chainName r.ruleSpecs s'
      else (.ok none, s')

/-! ## Model kernel / tooling state

Config instances carry pluggable functions; to settle claims about state left
in the kernel we instantiate them with executable model semantics over an
explicit state. -/

section AssocList

variable {κ α : Type} [DecidableEq κ]

/-- Look up the first entry with key `k` in an association list. -/
def assocGet : List (κ × α) → κ → Option α
  | [], _ => none
  | (k', v) :: rest, k => if k' = k then some v else assocGet rest k

/-- Replace the value at the first entry with key `k`, or append a new entry. -/
def assocSet : List (κ × α) → κ → α → List (κ × α)
  | [], k, v => [(k, v)]
  | (k', v') :: rest, k, v =>
      if k' = k then (k, v) :: rest else (k', v') :: assocSet rest k v

/-- Remove the first entry with key `k`. -/
def assocRemove : List (κ × α) → κ → List (κ × α)
  | [], _ => []
  | (k', v') :: rest, k =>
      if k' = k then rest else (k', v') :: assocRemove rest k

end AssocList

/-- The model kernel and packet-filter state acted on by the model semantics:
the sysctl key-value store, the kernel route table, the IPv4 policy-rule table
(the address family `IPRuleConfig.count` lists), and the packet-filter chains,
each a table/chain name mapped to its ordered rule specs. -/
structure ModelState where
  sysctls : List (String × String)
  routes : List Route
  rules : List Rule
  chains : List ((String × String) × List (List String))
  deriving DecidableEq, Repr

/-- The number of rules in a rule table equal to `ru` ignoring priority. -/
def countMatching (rules : List Rule) (ru : Rule) : Nat :=
  rules.countP (fun x => isRuleEqualWithoutPriority x ru)

/-- Model sysctl semantics: writing always succeeds and stores the value. -/
def mkModelSysctlConfig (k v dv : String) : SysctlConfig ModelState where
  key := k
  value := v
  defaultValue := dv
  sysctlFunc := fun key val s =>
    (("", none), { s with sysctls := assocSet s.sysctls key val })

/-- Model route semantics: adding an existing route fails with `EEXIST`,
deleting a missing route fails with `ESRCH`; otherwise the table is updated. -/
def mkModelRouteConfig (ro : Route) : IPRouteConfig ModelState where
  route := ro
  routeAdd := fun r s =>
    if r ∈ s.routes then (some (.errno EEXIST), s)
    else (none, { s with routes := s.routes ++ [r] })
  routeDel := fun r s =>
    if r ∈ s.routes then (none, { s with routes := s.routes.erase r })
    else (some (.errno ESRCH), s)

/-- Model policy-rule semantics: `RuleList` returns the table; `RuleAdd`
appends the rule; `RuleDel` removes the first rule matching the request
ignoring priority and fails with `ENOENT` when none matches — so every call
issued by a run of `ensureHelper` succeeds. -/
def mkModelRuleConfig (ru : Rule) : IPRuleConfig ModelState where
  rule := ru
  ruleAdd := fun r s => (none, { s with rules := s.rules ++ [r] })
  ruleDel := fun r s =>
    if s.rules.any (fun x => isRuleEqualWithoutPriority x r) then
      (none, { s with rules := s.rules.eraseP (fun x => isRuleEqualWithoutPriority x r) })
    else (some (.errno ENOENT), s)
  ruleList := fun _ s => ((none, s.rules), s)

/-- The status-1 error `iptables -N` reports for an existing chain. -/
def iptErrChainExists : GoErr := .iptErr 1 "Chain already exists."

/-- The status-1 error iptables reports when the addressed chain is absent. -/
def iptErrNoChain : GoErr := .iptErr 1 "No chain/target/match by that name."

/-- The nf_tables status-2 error `iptables -D` reports for an absent rule. -/
def iptErrBadRule : GoErr := .iptErr 2 "Bad rule (does a matching rule exist in that chain?)."

/-- The status-1 error `iptables -X` reports for a non-empty chain. -/
def iptErrNotEmpty : GoErr := .iptErr 1 "Directory not empty."

/-- Model packet-filter semantics over `ModelState.chains`: `NewChain` fails on
an existing chain with the status-1 "Chain already exists." error; `ClearChain`
creates-or-flushes (go-iptables semantics); `DeleteChain` removes an existing
empty chain and fails with a status-1 error otherwise; `AppendUnique` appends a
missing rule spec and no-ops on a present one; `Delete` removes the first
occurrence of the rule spec, failing with the status-2 "Bad rule" error when
the spec is absent and the status-1 "No chain/target/match" error when the
chain is absent. -/
def modelIpt : Iptabler ModelState where
  newChain := fun t c s =>
    match assocGet s.chains (t, c) with
    | some _ => (some iptErrChainExists, s)
    | none => (none, { s with chains := assocSet s.chains (t, c) [] })
  clearChain := fun t c s =>
    (none, { s with chains := assocSet s.chains (t, c) [] })
  deleteChain := fun t c s =>
    match assocGet s.chains (t, c) with
    | none => (some iptErrNoChain, s)
    | some [] => (none, { s with chains := assocRemove s.chains (t, c) })
    | some (_ :: _) => (some iptErrNotEmpty, s)
  appendUnique := fun t c rs s =>
    match assocGet s.chains (t, c) with
    | none => (some iptErrNoChain, s)
    | some rules =>
        if rs ∈ rules then (none, s)
        else (none, { s with chains := assocSet s.chains (t, c) (rules ++ [rs]) })
  delete := fun t c rs s =>
    match assocGet s.chains (t, c) with
    | none => (some iptErrNoChain, s)
    | some rules =>
        if rs ∈ rules then
          (none, { s with chains := assocSet s.chains (t, c) (rules.erase rs) })
        else (some iptErrBadRule, s)

/-- An `IPTablesRuleConfig` instantiated at the model packet-filter engine. -/
def mkModelIptCfg (t c : String) (isDef : Bool) (rss : List (List String)) :
    IPTablesRuleConfig ModelState where
  spec := { tableName := t, chainName := c, isDefaultChain := isDef, ipt := modelIpt }
  ruleSpecs := rss
  ipt := modelIpt

/-- The four Config variants of config.go, instantiated at the model
kernel/tooling semantics. -/
inductive ModelConfig where
  | sysctl (key value defaultValue : String)
  | route (r : Route)
  | ipRule (r : Rule)
  | iptRule (tableName chainName : String) (isDefaultChain : Bool)
      (ruleSpecs : List (List String))
  deriving DecidableEq, Repr

/-- `Ensure` of each variant at the model semantics (the variants whose Ensure
cannot panic are injected into `Outcome` with `.ok`). -/
def ensureModel (cfg : ModelConfig) (enabled : Bool) (s : ModelState) :
    Outcome (Option GoErr) × ModelState :=
  match cfg with
  | .sysctl k v dv =>
      let (e, s') := (mkModelSysctlConfig k v dv).Ensure enabled s
      (.ok e, s')
  | .route r => (mkModelRouteConfig r).Ensure enabled s
  | .ipRule r =>
      let (e, s') := (mkModelRuleConfig r).Ensure enabled s
      (.ok e, s')
  | .iptRule t c d rss => (mkModelIptCfg t c d rss).Ensure enabled s

/-- Well-formedness of a model state, as the kernel and iptables maintain it:
no two identical routes, unique chain names, and no duplicate rule specs inside
a chain (the `AppendUnique` discipline). -/
structure WFState (s : ModelState) : Prop where
  routesNodup : s.routes.Nodup
  chainKeysNodup : (s.chains.map Prod.fst).Nodup
  chainRulesNodup : ∀ k rules, assocGet s.chains k = some rules → rules.Nodup

/-! ## Call traces

To express which underlying calls an `Ensure` run issues, any `Iptabler` (or
rule-config function triple) can be wrapped so each call is also appended to a
trace carried next to the base state. -/

/-- One call on the `iptabler` interface. -/
inductive IPTCall where
  | newChain (table chain : String)
  | clearChain (table chain : String)
  | deleteChain (table chain : String)
  | appendUnique (table chain : String) (rs : List String)
  | delete (table chain : String) (rs : List String)
  deriving DecidableEq, Repr

/-- Whether a call mutates the chain's own lifecycle (clear or delete of the
chain itself, as opposed to operating on rules inside it). -/
def isChainLifecycleCall : IPTCall → Bool
  | .clearChain _ _ => true
  | .deleteChain _ _ => true
  | _ => false

/-- Wrap an `Iptabler` so every call is appended to a trace. -/
def tracedIpt (ipt : Iptabler σ) : Iptabler (σ × List IPTCall) where
  newChain := fun t c p =>
    let (e, s') := ipt.newChain t c p.1
    (e, (s', p.2 ++ [.newChain t c]))
  clearChain := fun t c p =>
    let (e, s') := ipt.clearChain t c p.1
    (e, (s', p.2 ++ [.clearChain t c]))
  deleteChain := fun t c p =>
    let (e, s') := ipt.deleteChain t c p.1
    (e, (s', p.2 ++ [.deleteChain t c]))
  appendUnique := fun t c rs p =>
    let (e, s') := ipt.appendUnique t c rs p.1
    (e, (s', p.2 ++ [.appendUnique t c rs]))
  delete := fun t c rs p =>
    let (e, s') := ipt.delete t c rs p.1
    (e, (s', p.2 ++ [.delete t c rs]))

/-- An `IPTablesRuleConfig` over a traced wrapper of a base engine. -/
def mkTracedIptCfg (ipt : Iptabler σ) (t c : String) (isDef : Bool)
    (rss : List (List String)) : IPTablesRuleConfig (σ × List IPTCall) where
  spec := { tableName := t, chainName := c, isDefaultChain := isDef, ipt := tracedIpt ipt }
  ruleSpecs := rss
  ipt := tracedIpt ipt

/-- One call on the pluggable rule functions of an `IPRuleConfig`. -/
inductive RuleCall where
  | add (r : Rule)
  | del (r : Rule)
  | list (family : Int)
  deriving DecidableEq, Repr

/-- Wrap an `IPRuleConfig` so every call is appended to a trace. -/
def tracedRuleConfig (base : IPRuleConfig σ) : IPRuleConfig (σ × List RuleCall) where
  rule := base.rule
  ruleAdd := fun r p =>
    let (e, s') := base.ruleAdd r p.1
    (e, (s', p.2 ++ [.add r]))
  ruleDel := fun r p =>
    let (e, s') := base.ruleDel r p.1
    (e, (s', p.2 ++ [.del r]))
  ruleList := fun fam p =>
    let ((e, rules), s') := base.ruleList fam p.1
    ((e, rules), (s', p.2 ++ [.list fam]))

/-! ## Set and the node-derived gateway (modelled from the spec)

The repository code that implements these two pieces is not under src/: only
the `Set` struct itself (config.go:37) and the test of
`fillLocalRulesFromNode` are. -/

/-- A member Config of a `Set`, reduced to its `Ensure` capability. -/
def ConfigFn (σ : Type) := Bool → σ → Option GoErr × σ

/-- Modelled from the spec: the code iterating a `Set`'s members is not under
src/. Per spec §4.7, ensuring a list of Configs calls `Ensure(enabled)` on each
member in declaration order; a member's error aborts the iteration and is
returned; state changes made by earlier members are kept. -/
def ensureAll : List (ConfigFn σ) → Bool → σ → Option GoErr × σ
  | [], _, s => (none, s)
  | c :: cs, enabled, s =>
      match c enabled s with
      | (none, s') => ensureAll cs enabled s'
      | (some e, s') => (some e, s')

/-- `Set` (config.go:37). -/
structure Set (σ : Type) where
  enabled : Bool
  featureName : String
  configs : List (ConfigFn σ)

/-- Modelled from the spec (§4.7): `Set.Ensure` ensures every member in
declaration order via `ensureAll`. -/
def Set.Ensure (st : Set σ) (enabled : Bool) (s : σ) : Option GoErr × σ :=
  ensureAll st.configs enabled s

/-- Split a character list on a separator character. -/
def splitOnChar (sep : Char) : List Char → List (List Char)
  | [] => [[]]
  | ch :: rest =>
      let r := splitOnChar sep rest
      if ch = sep then [] :: r
      else
        match r with
        | [] => [[ch]]
        | g :: gs => (ch :: g) :: gs

/-- The value of a decimal digit character. -/
def digitVal? (ch : Char) : Option Nat :=
  if '0' ≤ ch ∧ ch ≤ '9' then some (ch.toNat - 48) else none

/-- Parse a non-empty run of decimal digits. -/
def decNat? (cs : List Char) : Option Nat :=
  if cs = [] then none
  else cs.foldlM (fun acc ch => (digitVal? ch).map (fun d => acc * 10 + d)) 0

/-- Parse a dotted-quad IPv4 address into a natural number below `2^32`. -/
def parseIPv4Chars (cs : List Char) : Option Nat :=
  match splitOnChar '.' cs with
  | [a, b, c, d] =>
      match decNat? a, decNat? b, decNat? c, decNat? d with
      | some x, some y, some z, some w =>
          if x ≤ 255 ∧ y ≤ 255 ∧ z ≤ 255 ∧ w ≤ 255 then
            some (((x * 256 + y) * 256 + z) * 256 + w)
          else none
      | _, _, _, _ => none
  | _ => none

/-- An IPv4 network: address plus prefix length. -/
structure CIDR where
  ip : Nat
  maskLen : Nat
  deriving DecidableEq, Repr

/-- Parse CIDR text such as "10.124.0.0/16". -/
def parseCIDR (s : String) : Option CIDR :=
  match splitOnChar '/' s.toList with
  | [ipPart, lenPart] =>
      match parseIPv4Chars ipPart, decNat? lenPart with
      | some ip, some len => if len ≤ 32 then some ⟨ip, len⟩ else none
      | _, _ => none
  | _ => none

/-- The network base address of a CIDR: the host bits cleared. -/
def networkBase (c : CIDR) : Nat :=
  (c.ip >>> (32 - c.maskLen)) <<< (32 - c.maskLen)

/-- Modelled from the spec: `fillLocalRulesFromNode`'s gateway computation is
not under src/ (only its test is). Per spec §4.6 and the expectations of
`TestFillLocalRulesFromNode`, the veth gateway destination of a pod CIDR is the
network's base address incremented by one host, as a /32 host net. -/
def vethGatewayDstOf (podCIDR : String) : Option CIDR :=
  (parseCIDR podCIDR).map (fun c => ⟨networkBase c + 1, 32⟩)

/-- The numeric value of a dotted quad, for stating expected addresses. -/
def ipv4 (a b c d : Nat) : Nat :=
  ((a * 256 + b) * 256 + c) * 256 + d

/-! ## Lemmas: the convergence loop -/

theorem ensureLoop_base (r : IPRuleConfig σ) (n : Nat) (e : Option GoErr) (s : σ) :
    ensureLoop r n n e s = (e, s) := by
  rw [ensureLoop]
  simp

theorem ensureLoop_del (r : IPRuleConfig σ) {rc ec : Nat} (h : ec < rc)
    {e₁ : Option GoErr} {s₁ : σ} (e : Option GoErr) (s : σ)
    (hd : r.ruleDel r.rule s = (e₁, s₁)) :
    ensureLoop r rc ec e s = ensureLoop r (rc - 1) ec e₁ s₁ := by
  rw [ensureLoop, if_neg (by omega), if_pos h, hd]

theorem ensureLoop_add (r : IPRuleConfig σ) {rc ec : Nat} (h : rc < ec)
    {e₁ : Option GoErr} {s₁ : σ} (e : Option GoErr) (s : σ)
    (ha : r.ruleAdd r.rule s = (e₁, s₁)) :
    ensureLoop r rc ec e s =
      ensureLoop r (rc + 1) ec (if osIsExist e₁ then none else e₁) s₁ := by
  rw [ensureLoop, if_neg (by omega), if_neg (by omega), ha]

theorem isRuleEqual_refl (ru : Rule) : isRuleEqualWithoutPriority ru ru = true := by
  simp [isRuleEqualWithoutPriority]

theorem countP_eraseP_of_any {p : Rule → Bool} {l : List Rule}
    (h : l.any p = true) : (l.eraseP p).countP p = l.countP p - 1 := by
  induction l with
  | nil => simp at h
  | cons x xs ih =>
      by_cases hx : p x
      · simp [List.eraseP_cons_of_pos hx, List.countP_cons, hx]
      · have hxs : xs.any p = true := by
          simpa [List.any_cons, hx] using h
        simp [List.eraseP_cons_of_neg hx, List.countP_cons, hx, ih hxs]

theorem any_of_countMatching_pos {l : List Rule} {ru : Rule}
    (h : 0 < countMatching l ru) :
    l.any (fun x => isRuleEqualWithoutPriority x ru) = true := by
  rw [List.any_eq_true]
  simpa [countMatching, List.countP_pos_iff] using h

theorem countMatching_append_self (l : List Rule) (ru : Rule) :
    countMatching (l ++ [ru]) ru = countMatching l ru + 1 := by
  simp [countMatching, List.countP_append, List.countP_cons, isRuleEqual_refl]

/-- Deleting via the model semantics removes exactly one matching rule. -/
theorem countMatching_eraseP {l : List Rule} {ru : Rule}
    (h : 0 < countMatching l ru) :
    countMatching (l.eraseP (fun x => isRuleEqualWithoutPriority x ru)) ru =
      countMatching l ru - 1 := by
  exact countP_eraseP_of_any (any_of_countMatching_pos h)

/-- Running the loop from a model state with `ec + n` matching rules deletes
`n` of them; with `n = 0` nothing happens and the incoming error is returned. -/
theorem modelRule_loop_del (ru : Rule) (ec : Nat) :
    ∀ (n : Nat) (e : Option GoErr) (s : ModelState),
      countMatching s.rules ru = ec + n →
      ∃ s', ensureLoop (mkModelRuleConfig ru) (ec + n) ec e s =
          ((if n = 0 then e else none), s') ∧
        countMatching s'.rules ru = ec ∧ (n = 0 → s' = s) := by
  intro n
  induction n with
  | zero =>
      intro e s hc
      exact ⟨s, by simp [ensureLoop_base], by simpa using hc, fun _ => rfl⟩
  | succ n ih =>
      intro e s hc
      have hany : s.rules.any (fun x => isRuleEqualWithoutPriority x ru) = true :=
        any_of_countMatching_pos (by omega)
      have hdel : (mkModelRuleConfig ru).ruleDel (mkModelRuleConfig ru).rule s =
          (none, { s with rules := s.rules.eraseP (fun x => isRuleEqualWithoutPriority x ru) }) := by
        have hif : (mkModelRuleConfig ru).ruleDel (mkModelRuleConfig ru).rule s =
            if s.rules.any (fun x => isRuleEqualWithoutPriority x ru) = true then
              (none, { s with rules := s.rules.eraseP (fun x => isRuleEqualWithoutPriority x ru) })
            else (some (.errno ENOENT), s) := rfl
        rw [hif, if_pos hany]
      have hstep := ensureLoop_del (mkModelRuleConfig ru)
        (show ec < ec + (n + 1) by omega) e s hdel
      have hc' : countMatching
          (s.rules.eraseP (fun x => isRuleEqualWithoutPriority x ru)) ru = ec + n := by
        have := countMatching_eraseP (show 0 < countMatching s.rules ru from by omega)
        omega
      obtain ⟨s', h1, h2, _⟩ := ih none
        { s with rules := s.rules.eraseP (fun x => isRuleEqualWithoutPriority x ru) } hc'
      refine ⟨s', ?_, h2, by omega⟩
      rw [hstep]
      have hrc : ec + (n + 1) - 1 = ec + n := by omega
      rw [hrc, h1]
      simp

/-- Running the loop from a model state with `rc` matching rules and target
`rc + n` adds `n` copies of the rule; with `n = 0` nothing happens. -/
theorem modelRule_loop_add (ru : Rule) :
    ∀ (n rc : Nat) (e : Option GoErr) (s : ModelState),
      countMatching s.rules ru = rc →
      ∃ s', ensureLoop (mkModelRuleConfig ru) rc (rc + n) e s =
          ((if n = 0 then e else none), s') ∧
        countMatching s'.rules ru = rc + n ∧ (n = 0 → s' = s) := by
  intro n
  induction n with
  | zero =>
      intro rc e s hc
      exact ⟨s, by simp [ensureLoop_base], by simpa using hc, fun _ => rfl⟩
  | succ n ih =>
      intro rc e s hc
      have hadd : (mkModelRuleConfig ru).ruleAdd (mkModelRuleConfig ru).rule s =
          (none, { s with rules := s.rules ++ [ru] }) := rfl
      have hstep := ensureLoop_add (mkModelRuleConfig ru)
        (show rc < rc + (n + 1) by omega) e s hadd
      have hc' : countMatching ({ s with rules := s.rules ++ [ru] } : ModelState).rules ru
          = rc + 1 := by
        show countMatching (s.rules ++ [ru]) ru = rc + 1
        rw [countMatching_append_self, hc]
      obtain ⟨s', h1, h2, _⟩ := ih (rc + 1) none { s with rules := s.rules ++ [ru] } hc'
      have hrc : rc + 1 + n = rc + (n + 1) := by omega
      rw [hrc] at h1 h2
      rw [ite_self] at hstep
      refine ⟨s', ?_, h2, by omega⟩
      rw [hstep, h1]
      simp

/-- `ensureHelper` at the model semantics always returns nil and leaves exactly
`ensureCount` matching rules; when the state already matches, it is returned
untouched. -/
theorem modelRule_ensureHelper (ru : Rule) (ec : Nat) (s : ModelState) :
    ∃ s', (mkModelRuleConfig ru).ensureHelper ec s = (none, s') ∧
      countMatching s'.rules ru = ec ∧ (countMatching s.rules ru = ec → s' = s) := by
  have hunfold : (mkModelRuleConfig ru).ensureHelper ec s =
      ensureLoop (mkModelRuleConfig ru) (countMatching s.rules ru) ec none s := rfl
  rcases Nat.lt_trichotomy (countMatching s.rules ru) ec with h | h | h
  · obtain ⟨s', h1, h2, _⟩ :=
      modelRule_loop_add ru (ec - countMatching s.rules ru) (countMatching s.rules ru)
        none s rfl
    have hec : countMatching s.rules ru + (ec - countMatching s.rules ru) = ec := by omega
    rw [hec] at h1 h2
    refine ⟨s', ?_, h2, by omega⟩
    rw [hunfold, h1]
    simp [show ec - countMatching s.rules ru ≠ 0 by omega]
  · exact ⟨s, by rw [hunfold, h, ensureLoop_base], by omega, fun _ => rfl⟩
  · obtain ⟨s', h1, h2, _⟩ :=
      modelRule_loop_del ru ec (countMatching s.rules ru - ec) none s (by omega)
    have hec : ec + (countMatching s.rules ru - ec) = countMatching s.rules ru := by omega
    rw [hec] at h1
    refine ⟨s', ?_, h2, by omega⟩
    rw [hunfold, h1]
    simp [show countMatching s.rules ru - ec ≠ 0 by omega]

/-- C1: for every IPRuleConfig (instantiated at model netlink semantics under
which every RuleAdd/RuleDel/RuleList call issued by the run succeeds) and every
initial kernel state — containing any number N ≥ 0 of policy rules equal to the
config's rule ignoring priority — `Ensure(true)` leaves exactly 1 matching rule
in the kernel state and `Ensure(false)` leaves exactly 0. -/
theorem claim_C1_convergence_under_duplication (ru : Rule) (s : ModelState) :
    countMatching ((mkModelRuleConfig ru).Ensure true s).2.rules ru = 1 ∧
    countMatching ((mkModelRuleConfig ru).Ensure false s).2.rules ru = 0 := by
  constructor
  · obtain ⟨s', h1, h2, _⟩ := modelRule_ensureHelper ru 1 s
    have hE : (mkModelRuleConfig ru).Ensure true s =
        (mkModelRuleConfig ru).ensureHelper 1 s := rfl
    rw [hE, h1]
    exact h2
  · obtain ⟨s', h1, h2, _⟩ := modelRule_ensureHelper ru 0 s
    have hE : (mkModelRuleConfig ru).Ensure false s =
        (mkModelRuleConfig ru).ensureHelper 0 s := rfl
    rw [hE, h1]
    exact h2

/-- C2: the duplicate-counting equality `isRuleEqualWithoutPriority` holds
exactly when the two rules agree on every field other than `Priority`; in
particular a rule and its copy with any other priority count as the same
rule. -/
theorem claim_C2_rule_equality_ignores_priority (r1 r2 : Rule) :
    (isRuleEqualWithoutPriority r1 r2 = true ↔
      (r1.family = r2.family ∧ r1.table = r2.table ∧ r1.mark = r2.mark ∧
       r1.mask = r2.mask ∧ r1.tos = r2.tos ∧ r1.tunID = r2.tunID ∧
       r1.goTo = r2.goTo ∧ r1.src = r2.src ∧ r1.dst = r2.dst ∧
       r1.flow = r2.flow ∧ r1.iifName = r2.iifName ∧ r1.oifName = r2.oifName ∧
       r1.invert = r2.invert)) ∧
    (∀ p : Int, isRuleEqualWithoutPriority r1 { r1 with priority := p } = true) := by
  constructor
  · cases r1
    cases r2
    simp [isRuleEqualWithoutPriority, Rule.mk.injEq]
  · intro p
    cases r1
    simp [isRuleEqualWithoutPriority]

/-! ## Lemmas: error bookkeeping of the convergence loop (C3) -/

/-- As long as another iteration remains, the loop's incoming error value is
irrelevant: each iteration overwrites `err` with its own operation's result. -/
theorem ensureLoop_err_irrel (r : IPRuleConfig σ) {rc ec : Nat} (hne : rc ≠ ec)
    (e₁ e₂ : Option GoErr) (s : σ) :
    ensureLoop r rc ec e₁ s = ensureLoop r rc ec e₂ s := by
  rcases Nat.lt_or_ge ec rc with h | h
  · rcases hd : r.ruleDel r.rule s with ⟨ed, sd⟩
    rw [ensureLoop_del r h e₁ s hd, ensureLoop_del r h e₂ s hd]
  · have h' : rc < ec := by omega
    rcases ha : r.ruleAdd r.rule s with ⟨ea, sa⟩
    rw [ensureLoop_add r h' e₁ s ha, ensureLoop_add r h' e₂ s ha]

/-- A final add iteration returns its own add result, with an already-exists
error replaced by nil. -/
theorem ensureLoop_final_add (r : IPRuleConfig σ) (rc : Nat) (e : Option GoErr)
    (s : σ) {e₁ : Option GoErr} {s₁ : σ} (ha : r.ruleAdd r.rule s = (e₁, s₁)) :
    ensureLoop r rc (rc + 1) e s = ((if osIsExist e₁ then none else e₁), s₁) := by
  rw [ensureLoop_add r (by omega) e s ha, ensureLoop_base]

/-- A final delete iteration returns its own delete result unchanged, whether
or not earlier iterations failed. -/
theorem ensureLoop_final_del (r : IPRuleConfig σ) (ec : Nat) (e : Option GoErr)
    (s : σ) {e₁ : Option GoErr} {s₁ : σ} (hd : r.ruleDel r.rule s = (e₁, s₁)) :
    ensureLoop r (ec + 1) ec e s = (e₁, s₁) := by
  rw [ensureLoop_del r (by omega) e s hd]
  simp [ensureLoop_base]

/-- A traced delete appends one `.del` entry to the trace. -/
theorem tracedRule_del_eq (base : IPRuleConfig σ) (ru : Rule) (s : σ)
    (tr : List RuleCall) :
    (tracedRuleConfig base).ruleDel ru (s, tr) =
      ((base.ruleDel ru s).1, ((base.ruleDel ru s).2, tr ++ [.del ru])) := by
  rcases h : base.ruleDel ru s with ⟨e, s'⟩
  simp [tracedRuleConfig, h]

/-- A traced add appends one `.add` entry to the trace. -/
theorem tracedRule_add_eq (base : IPRuleConfig σ) (ru : Rule) (s : σ)
    (tr : List RuleCall) :
    (tracedRuleConfig base).ruleAdd ru (s, tr) =
      ((base.ruleAdd ru s).1, ((base.ruleAdd ru s).2, tr ++ [.add ru])) := by
  rcases h : base.ruleAdd ru s with ⟨e, s'⟩
  simp [tracedRuleConfig, h]

/-- Over the traced wrapper, the delete phase of the loop performs exactly `n`
underlying calls when the counter starts `n` above the target — deletes are
never retried and the loop cannot run forever. -/
theorem ensureLoop_traced_len_del (base : IPRuleConfig σ) (ec : Nat) :
    ∀ (n : Nat) (e : Option GoErr) (s : σ) (tr : List RuleCall),
      (ensureLoop (tracedRuleConfig base) (ec + n) ec e (s, tr)).2.2.length =
        tr.length + n := by
  intro n
  induction n with
  | zero =>
      intro e s tr
      simp [ensureLoop_base]
  | succ n ih =>
      intro e s tr
      have hd := tracedRule_del_eq base base.rule s tr
      rw [ensureLoop_del (tracedRuleConfig base) (show ec < ec + (n + 1) by omega)
        e (s, tr) hd]
      simp only [show ec + (n + 1) - 1 = ec + n from by omega]
      rw [ih (base.ruleDel base.rule s).1 (base.ruleDel base.rule s).2
        (tr ++ [RuleCall.del base.rule])]
      simp
      omega

/-- Over the traced wrapper, the add phase performs exactly `n` underlying
calls when the counter starts `n` below the target. -/
theorem ensureLoop_traced_len_add (base : IPRuleConfig σ) :
    ∀ (n rc : Nat) (e : Option GoErr) (s : σ) (tr : List RuleCall),
      (ensureLoop (tracedRuleConfig base) rc (rc + n) e (s, tr)).2.2.length =
        tr.length + n := by
  intro n
  induction n with
  | zero =>
      intro rc e s tr
      simp [ensureLoop_base]
  | succ n ih =>
      intro rc e s tr
      have ha := tracedRule_add_eq base base.rule s tr
      rw [ensureLoop_add (tracedRuleConfig base) (show rc < rc + (n + 1) by omega)
        e (s, tr) ha]
      have h2 := ih (rc + 1) (if osIsExist (base.ruleAdd base.rule s).1 then none
        else (base.ruleAdd base.rule s).1) (base.ruleAdd base.rule s).2 (tr ++ [RuleCall.add base.rule])
      rw [show rc + 1 + n = rc + (n + 1) from by omega] at h2
      rw [h2]
      simp
      omega

/-- A concrete rule, used by witnesses and counterexamples. -/
def ru0 : Rule := ⟨0, 2, 255, 0, none, 0, 0, 0, none, none, 0, "", "", false⟩

/-- Three rules equal to `ru0` up to priority. -/
def rules3 : List Rule := [ru0, { ru0 with priority := 10 }, { ru0 with priority := 20 }]

/-- A model state whose rule table is `rules3`. -/
def sW : ModelState := ⟨[], [], rules3, []⟩

/-- C3 (amended): in `ensureHelper`, after a successful listing the loop makes
exactly |initialCount − targetCount| iterations (one underlying call each, so a
persistent delete failure cannot make it loop forever); while an iteration
remains, the error from earlier iterations is forgotten; the returned value is
the final iteration's own operation result, where a final add's already-exists
error counts as success and a final delete's error is returned raw. -/
theorem claim_C3_loop_error_bookkeeping {σ : Type}
    (base r : IPRuleConfig σ) (ec : Nat) (s s₂ : σ) (tr : List RuleCall)
    (rules : List Rule) :
    (base.ruleList AF_INET s = ((none, rules), s₂) →
      ((tracedRuleConfig base).ensureHelper ec (s, tr)).2.2.length =
        tr.length + 1 +
          (max (countMatching rules base.rule) ec -
           min (countMatching rules base.rule) ec)) ∧
    (∀ (rc : Nat) (e₁ e₂ : Option GoErr) (s' : σ), rc ≠ ec →
      ensureLoop r rc ec e₁ s' = ensureLoop r rc ec e₂ s') ∧
    (∀ (rc : Nat) (e : Option GoErr) (s' : σ) (e₁ : Option GoErr) (s₁ : σ),
      r.ruleAdd r.rule s' = (e₁, s₁) →
      ensureLoop r rc (rc + 1) e s' = ((if osIsExist e₁ then none else e₁), s₁)) ∧
    (∀ (e : Option GoErr) (s' : σ) (e₁ : Option GoErr) (s₁ : σ),
      r.ruleDel r.rule s' = (e₁, s₁) →
      ensureLoop r (ec + 1) ec e s' = (e₁, s₁)) := by
  refine ⟨?_, ?_, ?_, ?_⟩
  · intro hlist
    have hcount : (tracedRuleConfig base).count (s, tr) =
        ((countMatching rules base.rule, none), (s₂, tr ++ [RuleCall.list AF_INET])) := by
      unfold IPRuleConfig.count
      simp [tracedRuleConfig, hlist, countMatching]
    have hunfold : (tracedRuleConfig base).ensureHelper ec (s, tr) =
        ensureLoop (tracedRuleConfig base) (countMatching rules base.rule) ec none
          (s₂, tr ++ [RuleCall.list AF_INET]) := by
      unfold IPRuleConfig.ensureHelper
      rw [hcount]
    rw [hunfold]
    rcases Nat.lt_trichotomy (countMatching rules base.rule) ec with h | h | h
    · have hlen := ensureLoop_traced_len_add base (ec - countMatching rules base.rule)
        (countMatching rules base.rule) none s₂ (tr ++ [RuleCall.list AF_INET])
      rw [show countMatching rules base.rule + (ec - countMatching rules base.rule) = ec
        from by omega] at hlen
      rw [hlen]
      simp
      omega
    · rw [h, ensureLoop_base]
      simp
    · have hlen := ensureLoop_traced_len_del base ec (countMatching rules base.rule - ec)
        none s₂ (tr ++ [RuleCall.list AF_INET])
      rw [show ec + (countMatching rules base.rule - ec) = countMatching rules base.rule
        from by omega] at hlen
      rw [hlen]
      simp
      omega
  · intro rc e₁ e₂ s' hne
    exact ensureLoop_err_irrel r hne e₁ e₂ s'
  · intro rc e s' e₁ s₁ ha
    exact ensureLoop_final_add r rc e s' ha
  · intro e s' e₁ s₁ hd
    exact ensureLoop_final_del r ec e s' hd

/-- Witness for C3: a concrete run with three matching rules and target 1
performs the listing call plus exactly two loop iterations. -/
theorem claim_C3_loop_error_bookkeeping_witness :
    ((tracedRuleConfig (mkModelRuleConfig ru0)).ensureHelper 1 (sW, [])).2.2.length =
      List.length ([] : List RuleCall) + 1 +
        (max (countMatching rules3 (mkModelRuleConfig ru0).rule) 1 -
         min (countMatching rules3 (mkModelRuleConfig ru0).rule) 1) :=
  (claim_C3_loop_error_bookkeeping (mkModelRuleConfig ru0) (mkModelRuleConfig ru0)
    1 sW sW [] rules3).1 rfl

/-- The convergence loop over a state counting delete attempts: the first
delete fails, later deletes succeed and remove one matching rule. -/
def c3Cfg : IPRuleConfig (List Rule × Nat) where
  rule := ru0
  ruleAdd := fun r p => (none, (p.1 ++ [r], p.2))
  ruleDel := fun r p =>
    if p.2 = 0 then (some (.other "permission denied"), (p.1, 1))
    else (none, (p.1.eraseP (fun x => isRuleEqualWithoutPriority x r), p.2 + 1))
  ruleList := fun _ p => ((none, p.1), p)

/-- Counterexample to C3 as stated: from three matching rules and target 1, the
first delete fails and the second succeeds, so a delete in the pass failed and
convergence was not reached (two matching rules remain), yet `Ensure(true)`
returns nil rather than a non-nil error — the loop returns only the final
iteration's result, not the last non-nil error of the pass. -/
theorem claim_C3_counterexample :
    c3Cfg.ruleDel c3Cfg.rule (rules3, 0) =
      (some (.other "permission denied"), (rules3, 1)) ∧
    c3Cfg.Ensure true (rules3, 0) =
      (none, (rules3.eraseP (fun x => isRuleEqualWithoutPriority x ru0), 2)) ∧
    countMatching (rules3.eraseP (fun x => isRuleEqualWithoutPriority x ru0)) ru0 = 2 := by
  refine ⟨rfl, ?_, by decide⟩
  have h0 : c3Cfg.Ensure true (rules3, 0) = ensureLoop c3Cfg 3 1 none (rules3, 0) := rfl
  rw [h0]
  rw [ensureLoop_del c3Cfg (show (1 : Nat) < 3 from by omega) none (rules3, 0)
    (show c3Cfg.ruleDel c3Cfg.rule (rules3, 0) =
      (some (.other "permission denied"), (rules3, 1)) from rfl)]
  show ensureLoop c3Cfg (1 + 1) 1 (some (.other "permission denied")) (rules3, 1) = _
  rw [ensureLoop_final_del c3Cfg 1 (some (.other "permission denied")) (rules3, 1)
    (show c3Cfg.ruleDel c3Cfg.rule (rules3, 1) =
      (none, (rules3.eraseP (fun x => isRuleEqualWithoutPriority x ru0), 2)) from rfl)]

/-- C4 (amended): `IPRouteConfig.Ensure(true)` calls RouteAdd and returns nil
when the add error is nil or "already exists", otherwise the add error
unchanged; `Ensure(false)` calls RouteDel and returns nil when the delete error
is nil or the errno ESRCH, and returns any other errno unchanged. (A delete
error that is not a `syscall.Errno` is not returned: the type assertion panics,
see the counterexample.) -/
theorem claim_C4_route_ensure_error_classification {σ : Type}
    (r : IPRouteConfig σ) (s : σ) :
    (∀ (e : Option GoErr) (s' : σ), r.routeAdd r.route s = (e, s') →
      r.Ensure true s = (.ok (if osIsExist e then none else e), s')) ∧
    (∀ (s' : σ), r.routeDel r.route s = (none, s') →
      r.Ensure false s = (.ok none, s')) ∧
    (∀ (n : Nat) (s' : σ), r.routeDel r.route s = (some (.errno n), s') →
      r.Ensure false s = (.ok (if n = ESRCH then none else some (.errno n)), s')) := by
  refine ⟨?_, ?_, ?_⟩
  · intro e s' h
    rcases he : osIsExist e <;> simp [IPRouteConfig.Ensure, h, he]
  · intro s' h
    simp [IPRouteConfig.Ensure, h]
  · intro n s' h
    by_cases hn : n = ESRCH <;> simp [IPRouteConfig.Ensure, h, hn]

/-- A concrete route. -/
def c4Route : Route := ⟨none, 0, 0, 0, 0⟩

/-- A route config whose delete reports ESRCH (route already absent). -/
def c4CfgW : IPRouteConfig Unit where
  route := c4Route
  routeAdd := fun _ s => (none, s)
  routeDel := fun _ s => (some (.errno ESRCH), s)

/-- Witness for C4: deleting an absent route is swallowed as success. -/
theorem claim_C4_route_ensure_error_classification_witness :
    c4CfgW.Ensure false () =
      (.ok (if ESRCH = ESRCH then none else some (.errno ESRCH)), ()) :=
  (claim_C4_route_ensure_error_classification c4CfgW ()).2.2 ESRCH () rfl

/-- A route config whose delete reports an error that is not a
`syscall.Errno`. -/
def c4CfgBad : IPRouteConfig Unit where
  route := c4Route
  routeAdd := fun _ s => (none, s)
  routeDel := fun _ s => (some (.other "route table io failure"), s)

/-- Counterexample to C4 as stated: when RouteDel returns a non-errno error,
`Ensure(false)` panics on the `err.(syscall.Errno)` type assertion instead of
returning the error unchanged. -/
theorem claim_C4_counterexample :
    c4CfgBad.Ensure false () = (.panicked, ()) ∧
    (Outcome.panicked : Outcome (Option GoErr)) ≠
      .ok (some (.other "route table io failure")) := by
  exact ⟨rfl, by decide⟩

/-- C10: `IPRouteConfig.Ensure(false)` terminates normally only when the delete
error is nil or a `syscall.Errno`: a non-nil, non-errno delete error makes the
unconditional type assertion fail (runtime panic) and the error is not
propagated; a nil or errno delete error always yields a normal return. -/
theorem claim_C10_route_del_type_assertion {σ : Type}
    (r : IPRouteConfig σ) (s : σ) :
    (∀ (e : GoErr) (s' : σ), r.routeDel r.route s = (some e, s') →
      (∀ n, e ≠ .errno n) → r.Ensure false s = (.panicked, s')) ∧
    (∀ (n : Nat) (s' : σ), r.routeDel r.route s = (some (.errno n), s') →
      ∃ o, r.Ensure false s = (.ok o, s')) ∧
    (∀ (s' : σ), r.routeDel r.route s = (none, s') →
      r.Ensure false s = (.ok none, s')) := by
  refine ⟨?_, ?_, ?_⟩
  · intro e s' h hne
    cases e with
    | errno n => exact absurd rfl (hne n)
    | iptErr st msg => simp [IPRouteConfig.Ensure, h]
    | other msg => simp [IPRouteConfig.Ensure, h]
  · intro n s' h
    by_cases hn : n = ESRCH
    · exact ⟨none, by simp [IPRouteConfig.Ensure, h, hn]⟩
    · exact ⟨some (.errno n), by simp [IPRouteConfig.Ensure, h, hn]⟩
  · intro s' h
    simp [IPRouteConfig.Ensure, h]

/-- A route config whose delete reports a go-iptables-typed error (not an
errno). -/
def c10Cfg : IPRouteConfig Unit where
  route := c4Route
  routeAdd := fun _ s => (none, s)
  routeDel := fun _ s => (some (.iptErr 1 "oops"), s)

/-- Witness for C10: a non-errno delete error panics. -/
theorem claim_C10_route_del_type_assertion_witness :
    c10Cfg.Ensure false () = (.panicked, ()) :=
  (claim_C10_route_del_type_assertion c10Cfg ()).1 (.iptErr 1 "oops") () rfl
    (fun _ h => GoErr.noConfusion h)

/-- A packet-filter engine whose `Delete` fails with an error that is not an
`*iptables.Error` (e.g. the iptables binary could not be executed). -/
def c6Ipt : Iptabler Unit where
  newChain := fun _ _ s => (none, s)
  clearChain := fun _ _ s => (none, s)
  deleteChain := fun _ _ s => (none, s)
  appendUnique := fun _ _ _ s => (none, s)
  delete := fun _ _ _ s => (some (.other "exec format error"), s)

/-- A default-chain rule config over that engine. -/
def c6Cfg : IPTablesRuleConfig Unit where
  spec := { tableName := "filter", chainName := "FORWARD", isDefaultChain := true, ipt := c6Ipt }
  ruleSpecs := [["-j", "ACCEPT"]]
  ipt := c6Ipt

/-- C6 (code bug): disabling a default-chain config whose rule-spec deletion
fails with an error that is not an `*iptables.Error` does not return the error
as the spec requires — config.go:240 calls `eerr.Error()` on the nil result of
the failed type assertion `err.(*iptables.Error)` and panics. -/
theorem claim_C6_default_chain_delete_panic :
    c6Cfg.Ensure false () = (.panicked, ()) ∧
    (Outcome.panicked : Outcome (Option GoErr)) ≠
      .ok (some (.other "exec format error")) := by
  exact ⟨rfl, by decide⟩

/-! ## Lemmas: traced packet-filter calls (C5) -/

/-- The rule-spec disable loop only ever issues `Delete` calls: whatever the
engine answers, the trace grows only by non-lifecycle entries. -/
theorem iptDeleteLoop_traced_calls (ipt : Iptabler σ) (t c : String) :
    ∀ (rss : List (List String)) (s : σ) (tr : List IPTCall),
      ∃ calls, (iptDeleteLoop (tracedIpt ipt) t c rss (s, tr)).2.2 = tr ++ calls ∧
        ∀ x ∈ calls, isChainLifecycleCall x = false := by
  intro rss
  induction rss with
  | nil =>
      intro s tr
      exact ⟨[], by simp [iptDeleteLoop], by simp⟩
  | cons rs rest ih =>
      intro s tr
      rcases hd : ipt.delete t c rs s with ⟨e, s₁⟩
      have hstep : (tracedIpt ipt).delete t c rs (s, tr) =
          (e, (s₁, tr ++ [.delete t c rs])) := by
        simp [tracedIpt, hd]
      rw [iptDeleteLoop, hstep]
      cases e with
      | none =>
          obtain ⟨calls, h1, h2⟩ := ih s₁ (tr ++ [.delete t c rs])
          refine ⟨IPTCall.delete t c rs :: calls, ?_, ?_⟩
          · simpa using h1
          · intro x hx
            rcases List.mem_cons.mp hx with hx | hx
            · rw [hx]; rfl
            · exact h2 x hx
      | some e' =>
          cases hcl : classifyDeleteErr e' with
          | benign =>
              obtain ⟨calls, h1, h2⟩ := ih s₁ (tr ++ [.delete t c rs])
              refine ⟨IPTCall.delete t c rs :: calls, ?_, ?_⟩
              · simp only [hcl]
                simpa using h1
              · intro x hx
                rcases List.mem_cons.mp hx with hx | hx
                · rw [hx]; rfl
                · exact h2 x hx
          | fatal =>
              refine ⟨[IPTCall.delete t c rs], ?_, ?_⟩
              · simp [hcl]
              · intro x hx
                simp only [List.mem_singleton] at hx
                rw [hx]; rfl
          | nilPanic =>
              refine ⟨[IPTCall.delete t c rs], ?_, ?_⟩
              · simp [hcl]
              · intro x hx
                simp only [List.mem_singleton] at hx
                rw [hx]; rfl

/-- C5: disabling a rule config whose chain is a system default never issues a
chain-delete (or chain-clear) call — the trace grows only by rule-level
deletes; disabling a non-default chain issues ClearChain followed by
DeleteChain, and a status-1 "chain already absent" DeleteChain error is treated
as success. -/
theorem claim_C5_default_chain_protection {σ : Type} (ipt : Iptabler σ)
    (t c : String) (rss : List (List String)) (s : σ) (tr : List IPTCall) :
    (∃ calls, ((mkTracedIptCfg ipt t c true rss).Ensure false (s, tr)).2.2 = tr ++ calls ∧
      ∀ x ∈ calls, isChainLifecycleCall x = false) ∧
    (∀ (s₂ s₃ : σ) (e : GoErr),
      ipt.clearChain t c s = (none, s₂) →
      ipt.deleteChain t c s₂ = (some e, s₃) →
      iptStatusIsOne e = true →
      (mkTracedIptCfg ipt t c false rss).Ensure false (s, tr) =
        (.ok none, (s₃, tr ++ [.clearChain t c, .deleteChain t c]))) := by
  constructor
  · have hE : (mkTracedIptCfg ipt t c true rss).Ensure false (s, tr) =
        iptDeleteLoop (tracedIpt ipt) t c rss (s, tr) := rfl
    rw [hE]
    exact iptDeleteLoop_traced_calls ipt t c rss s tr
  · intro s₂ s₃ e hclear hdel hone
    have h1 : (tracedIpt ipt).clearChain t c (s, tr) =
        (none, (s₂, tr ++ [.clearChain t c])) := by
      simp [tracedIpt, hclear]
    have h2 : (tracedIpt ipt).deleteChain t c (s₂, tr ++ [.clearChain t c]) =
        (some e, (s₃, (tr ++ [.clearChain t c]) ++ [.deleteChain t c])) := by
      simp [tracedIpt, hdel]
    have h3 : (mkTracedIptCfg ipt t c false rss).spec.ensure false (s, tr) =
        (none, (s₃, (tr ++ [.clearChain t c]) ++ [.deleteChain t c])) := by
      unfold IPTablesChainSpec.ensure
      simp [mkTracedIptCfg, h1, h2, hone]
    have h4 : (mkTracedIptCfg ipt t c false rss).Ensure false (s, tr) =
        (.ok none, (s₃, (tr ++ [.clearChain t c]) ++ [.deleteChain t c])) := by
      unfold IPTablesRuleConfig.Ensure
      rw [h3]
      rfl
    rw [h4]
    simp

/-- An engine for the C5 witness: deleting the chain reports the status-1
"chain already absent" error. -/
def c5Ipt : Iptabler Unit where
  newChain := fun _ _ s => (none, s)
  clearChain := fun _ _ s => (none, s)
  deleteChain := fun _ _ s => (some (.iptErr 1 "No chain/target/match by that name."), s)
  appendUnique := fun _ _ _ s => (none, s)
  delete := fun _ _ _ s => (none, s)

/-- Witness for C5: disabling a non-default chain issues exactly ClearChain
then DeleteChain and swallows the status-1 deletion error. -/
theorem claim_C5_default_chain_protection_witness :
    (mkTracedIptCfg c5Ipt "nat" "IP-MASQ-AGENT" false [["-j", "RETURN"]]).Ensure
        false ((), []) =
      (.ok none, ((), [IPTCall.clearChain "nat" "IP-MASQ-AGENT",
        IPTCall.deleteChain "nat" "IP-MASQ-AGENT"])) := by
  have h := (claim_C5_default_chain_protection c5Ipt "nat" "IP-MASQ-AGENT"
    [["-j", "RETURN"]] () []).2 () ()
    (.iptErr 1 "No chain/target/match by that name.") rfl rfl rfl
  simpa using h

/-! ## C8: Set ensures members in order, aborting on the first error -/

/-- Splitting `ensureAll` at an append: the suffix runs from the prefix's final
state, and only if the prefix succeeded. -/
theorem ensureAll_append {σ : Type} (b : Bool) :
    ∀ (pre rest : List (ConfigFn σ)) (s : σ),
      ensureAll (pre ++ rest) b s =
        match ensureAll pre b s with
        | (none, s₁) => ensureAll rest b s₁
        | (some e, s₁) => (some e, s₁) := by
  intro pre
  induction pre with
  | nil => intro rest s; rfl
  | cons c cs ih =>
      intro rest s
      rcases hc : c b s with ⟨e, s'⟩
      cases e with
      | none =>
          have hl : ensureAll ((c :: cs) ++ rest) b s = ensureAll (cs ++ rest) b s' := by
            show (match c b s with
              | (none, s₁) => ensureAll (cs ++ rest) b s₁
              | (some e, s₁) => (some e, s₁)) = ensureAll (cs ++ rest) b s'
            rw [hc]
          have hr : ensureAll (c :: cs) b s = ensureAll cs b s' := by
            show (match c b s with
              | (none, s₁) => ensureAll cs b s₁
              | (some e, s₁) => (some e, s₁)) = ensureAll cs b s'
            rw [hc]
          rw [hl, ih rest s', hr]
      | some e' =>
          have hl : ensureAll ((c :: cs) ++ rest) b s = (some e', s') := by
            show (match c b s with
              | (none, s₁) => ensureAll (cs ++ rest) b s₁
              | (some e, s₁) => (some e, s₁)) = (some e', s')
            rw [hc]
          have hr : ensureAll (c :: cs) b s = (some e', s') := by
            show (match c b s with
              | (none, s₁) => ensureAll cs b s₁
              | (some e, s₁) => (some e, s₁)) = (some e', s')
            rw [hc]
          rw [hl, hr]

/-- C8: `Set.Ensure` runs its member Configs in declaration order, threading
the state; the first member error aborts the bundle — later members are not
run — and that error is returned together with the state as the failing member
left it (no rollback of earlier members); if all members of a bundle succeed,
the bundle succeeds with their combined effect. -/
theorem claim_C8_set_sequential_first_error {σ : Type}
    (pre post : List (ConfigFn σ)) (c : ConfigFn σ) (b en : Bool)
    (s s₁ s₂ : σ) (e : GoErr) (name : String) :
    (ensureAll pre b s = (none, s₁) → c b s₁ = (some e, s₂) →
      (Set.mk en name (pre ++ c :: post)).Ensure b s = (some e, s₂)) ∧
    (ensureAll pre b s = (none, s₁) →
      (Set.mk en name pre).Ensure b s = (none, s₁)) := by
  constructor
  · intro hpre hc
    show ensureAll (pre ++ c :: post) b s = (some e, s₂)
    rw [ensureAll_append b pre (c :: post) s, hpre]
    show (match c b s₁ with
      | (none, s') => ensureAll post b s'
      | (some e, s') => (some e, s')) = (some e, s₂)
    rw [hc]
  · intro hpre
    exact hpre

/-- A member that succeeds, incrementing a counter state. -/
def c8Ok : ConfigFn Nat := fun _ n => (none, n + 1)

/-- A member that fails, scaling the counter state. -/
def c8Bad : ConfigFn Nat := fun _ n => (some (.other "sysctl write failed"), n * 10)

/-- Witness for C8: `[ok, bad, ok]` stops at `bad`, returns its error, and the
state keeps the first member's effect plus the failing member's — the trailing
member never runs. -/
theorem claim_C8_set_sequential_first_error_witness :
    (Set.mk true "policy-routing" ([c8Ok] ++ c8Bad :: [c8Ok])).Ensure true 0 =
      (some (.other "sysctl write failed"), 10) :=
  (claim_C8_set_sequential_first_error [c8Ok] [c8Ok] c8Bad true true
    0 1 10 (.other "sysctl write failed") "policy-routing").1 rfl rfl

/-! ## C9: gateway derivation from the pod CIDR -/

/-- C9: for every parseable pod CIDR, the veth gateway destination is the
CIDR's network base address incremented by one host, with a /32 mask. -/
theorem claim_C9_gateway_derivation (s : String) (net : CIDR)
    (h : parseCIDR s = some net) :
    vethGatewayDstOf s = some ⟨networkBase net + 1, 32⟩ := by
  simp [vethGatewayDstOf, h]

/-- Witness for C9: pod CIDR 10.124.0.0/16 yields 10.124.0.1/32, and pod CIDR
10.52.1.0/24 yields 10.52.1.1/32. -/
theorem claim_C9_gateway_derivation_witness :
    vethGatewayDstOf "10.124.0.0/16" = some ⟨ipv4 10 124 0 1, 32⟩ ∧
    vethGatewayDstOf "10.52.1.0/24" = some ⟨ipv4 10 52 1 1, 32⟩ := by
  constructor
  · exact (claim_C9_gateway_derivation "10.124.0.0/16" ⟨ipv4 10 124 0 0, 16⟩
      (by decide)).trans (by decide)
  · exact (claim_C9_gateway_derivation "10.52.1.0/24" ⟨ipv4 10 52 1 0, 24⟩
      (by decide)).trans (by decide)

/-! ## Lemmas: association lists (C7) -/

section AssocLemmas

variable {κ α : Type} [DecidableEq κ]

theorem assocGet_assocSet_self (l : List (κ × α)) (k : κ) (v : α) :
    assocGet (assocSet l k v) k = some v := by
  induction l with
  | nil => simp [assocSet, assocGet]
  | cons p rest ih =>
      rcases p with ⟨k', v'⟩
      by_cases h : k' = k
      · simp [assocSet, h, assocGet]
      · simp [assocSet, h, assocGet, ih]

theorem assocSet_assocSet_self (l : List (κ × α)) (k : κ) (v w : α) :
    assocSet (assocSet l k v) k w = assocSet l k w := by
  induction l with
  | nil => simp [assocSet]
  | cons p rest ih =>
      rcases p with ⟨k', v'⟩
      by_cases h : k' = k
      · simp [assocSet, h]
      · simp [assocSet, h, ih]

theorem assocSet_self_of_get {l : List (κ × α)} {k : κ} {v : α}
    (h : assocGet l k = some v) : assocSet l k v = l := by
  induction l with
  | nil => simp [assocGet] at h
  | cons p rest ih =>
      rcases p with ⟨k', v'⟩
      by_cases hk : k' = k
      · simp [assocGet, hk] at h
        simp [assocSet, hk, h]
      · simp [assocGet, hk] at h
        simp [assocSet, hk, ih h]

theorem assocGet_eq_none_iff {l : List (κ × α)} {k : κ} :
    assocGet l k = none ↔ k ∉ l.map Prod.fst := by
  induction l with
  | nil => simp [assocGet]
  | cons p rest ih =>
      rcases p with ⟨k', v'⟩
      by_cases h : k' = k
      · simp [assocGet, h]
      · simp [assocGet, h, ih, Ne.symm h]

theorem assocSet_of_get_none {l : List (κ × α)} {k : κ} (v : α)
    (h : assocGet l k = none) : assocSet l k v = l ++ [(k, v)] := by
  induction l with
  | nil => simp [assocSet]
  | cons p rest ih =>
      rcases p with ⟨k', v'⟩
      by_cases hk : k' = k
      · simp [assocGet, hk] at h
      · simp [assocGet, hk] at h
        simp [assocSet, hk, ih h]

theorem assocRemove_of_get_none {l : List (κ × α)} {k : κ}
    (h : assocGet l k = none) : assocRemove l k = l := by
  induction l with
  | nil => rfl
  | cons p rest ih =>
      rcases p with ⟨k', v'⟩
      by_cases hk : k' = k
      · simp [assocGet, hk] at h
      · simp [assocGet, hk] at h
        simp [assocRemove, hk, ih h]

theorem assocRemove_assocSet (l : List (κ × α)) (k : κ) (v : α) :
    assocRemove (assocSet l k v) k = assocRemove l k := by
  induction l with
  | nil => simp [assocSet, assocRemove]
  | cons p rest ih =>
      rcases p with ⟨k', v'⟩
      by_cases h : k' = k
      · simp [assocSet, assocRemove, h]
      · simp [assocSet, assocRemove, h, ih]

theorem assocGet_append_single {l : List (κ × α)} {k : κ}
    (h : assocGet l k = none) (v : α) : assocGet (l ++ [(k, v)]) k = some v := by
  induction l with
  | nil => simp [assocGet]
  | cons p rest ih =>
      rcases p with ⟨k', v'⟩
      by_cases hk : k' = k
      · simp [assocGet, hk] at h
      · simp [assocGet, hk] at h
        simp [assocGet, hk, ih h]

theorem assocRemove_append_single {l : List (κ × α)} {k : κ}
    (h : assocGet l k = none) (v : α) : assocRemove (l ++ [(k, v)]) k = l := by
  induction l with
  | nil => simp [assocRemove]
  | cons p rest ih =>
      rcases p with ⟨k', v'⟩
      by_cases hk : k' = k
      · simp [assocGet, hk] at h
      · simp [assocGet, hk] at h
        simp [assocRemove, hk, ih h]

theorem assocGet_assocRemove_self {l : List (κ × α)} {k : κ}
    (h : (l.map Prod.fst).Nodup) : assocGet (assocRemove l k) k = none := by
  induction l with
  | nil => simp [assocRemove, assocGet]
  | cons p rest ih =>
      rcases p with ⟨k', v'⟩
      simp only [List.map_cons, List.nodup_cons] at h
      by_cases hk : k' = k
      · subst hk
        simp only [assocRemove, if_pos rfl]
        exact assocGet_eq_none_iff.mpr h.1
      · simp [assocRemove, hk, assocGet, ih h.2]

end AssocLemmas

/-! ## Lemmas: folded rule-spec updates (C7) -/

/-- Erase each spec of `rss` once from `r`, in order. -/
def eraseAll (r : List (List String)) (rss : List (List String)) :
    List (List String) :=
  rss.foldl (fun acc rs => acc.erase rs) r

/-- Append each spec of `rss` to `r` unless already present, in order. -/
def appendAll (r : List (List String)) (rss : List (List String)) :
    List (List String) :=
  rss.foldl (fun acc rs => if rs ∈ acc then acc else acc ++ [rs]) r

theorem eraseAll_cons (r : List (List String)) (rs : List String)
    (rss : List (List String)) :
    eraseAll r (rs :: rss) = eraseAll (r.erase rs) rss := rfl

theorem mem_of_mem_eraseAll {x : List String} {rss : List (List String)} :
    ∀ {r : List (List String)}, x ∈ eraseAll r rss → x ∈ r := by
  induction rss with
  | nil => intro r h; exact h
  | cons rs rest ih =>
      intro r h
      rw [eraseAll_cons] at h
      exact List.mem_of_mem_erase (ih h)

theorem eraseAll_nodup {rss : List (List String)} :
    ∀ {r : List (List String)}, r.Nodup → (eraseAll r rss).Nodup := by
  induction rss with
  | nil => intro r h; exact h
  | cons rs rest ih =>
      intro r h
      rw [eraseAll_cons]
      exact ih (h.erase rs)

theorem notMem_eraseAll {rss : List (List String)} :
    ∀ {r : List (List String)}, r.Nodup → ∀ rs ∈ rss, rs ∉ eraseAll r rss := by
  induction rss with
  | nil => intro r _ rs h; simp at h
  | cons a rest ih =>
      intro r hnd rs hrs
      rcases List.mem_cons.mp hrs with h | h
      · subst h
        rw [eraseAll_cons]
        intro hmem
        exact (hnd.not_mem_erase) (mem_of_mem_eraseAll hmem)
      · rw [eraseAll_cons]
        exact ih (hnd.erase a) rs h

theorem eraseAll_of_all_not_mem {rss : List (List String)} :
    ∀ {r : List (List String)}, (∀ rs ∈ rss, rs ∉ r) → eraseAll r rss = r := by
  induction rss with
  | nil => intro r _; rfl
  | cons a rest ih =>
      intro r h
      rw [eraseAll_cons, List.erase_of_not_mem (h a (by simp))]
      exact ih (fun rs hrs => h rs (by simp [hrs]))

theorem appendAll_cons (r : List (List String)) (rs : List String)
    (rss : List (List String)) :
    appendAll r (rs :: rss) =
      appendAll (if rs ∈ r then r else r ++ [rs]) rss := rfl

theorem mem_appendAll_of_mem_base {x : List String} {rss : List (List String)} :
    ∀ {r : List (List String)}, x ∈ r → x ∈ appendAll r rss := by
  induction rss with
  | nil => intro r h; exact h
  | cons a rest ih =>
      intro r h
      rw [appendAll_cons]
      by_cases ha : a ∈ r
      · rw [if_pos ha]; exact ih h
      · rw [if_neg ha]; exact ih (by simp [h])

theorem mem_appendAll_of_mem_arg {rss : List (List String)} :
    ∀ {r : List (List String)}, ∀ rs ∈ rss, rs ∈ appendAll r rss := by
  induction rss with
  | nil => intro r rs h; simp at h
  | cons a rest ih =>
      intro r rs hrs
      rcases List.mem_cons.mp hrs with h | h
      · subst h
        rw [appendAll_cons]
        by_cases ha : rs ∈ r
        · rw [if_pos ha]; exact mem_appendAll_of_mem_base ha
        · rw [if_neg ha]; exact mem_appendAll_of_mem_base (by simp)
      · rw [appendAll_cons]
        exact ih rs h

theorem appendAll_of_all_mem {rss : List (List String)} :
    ∀ {r : List (List String)}, (∀ rs ∈ rss, rs ∈ r) → appendAll r rss = r := by
  induction rss with
  | nil => intro r _; rfl
  | cons a rest ih =>
      intro r h
      rw [appendAll_cons, if_pos (h a (by simp))]
      exact ih (fun rs hrs => h rs (by simp [hrs]))

/-! ## Lemmas: the model packet-filter engine (C7) -/

/-- The append loop over the model engine on an existing chain: always succeeds
and leaves the chain holding `appendAll rules₀ rss`. -/
theorem modelIpt_appendLoop (t c : String) :
    ∀ (rss : List (List String)) (s : ModelState) (rules₀ : List (List String)),
      assocGet s.chains (t, c) = some rules₀ →
      iptAppendLoop modelIpt t c rss s =
        (none, { s with chains := assocSet s.chains (t, c) (appendAll rules₀ rss) }) := by
  intro rss
  induction rss with
  | nil =>
      intro s rules₀ hg
      show (none, s) = _
      rw [show appendAll rules₀ [] = rules₀ from rfl, assocSet_self_of_get hg]
  | cons rs rest ih =>
      intro s rules₀ hg
      by_cases hin : rs ∈ rules₀
      · have happ : modelIpt.appendUnique t c rs s = (none, s) := by
          simp [modelIpt, hg, hin]
        have hstep : iptAppendLoop modelIpt t c (rs :: rest) s =
            iptAppendLoop modelIpt t c rest s := by
          rw [iptAppendLoop, happ]
        rw [hstep, ih s rules₀ hg, appendAll_cons, if_pos hin]
      · have happ : modelIpt.appendUnique t c rs s =
            (none, { s with chains := assocSet s.chains (t, c) (rules₀ ++ [rs]) }) := by
          simp [modelIpt, hg, hin]
        have hg₁ : assocGet
            ({ s with chains := assocSet s.chains (t, c) (rules₀ ++ [rs]) } : ModelState).chains
            (t, c) = some (rules₀ ++ [rs]) :=
          assocGet_assocSet_self _ _ _
        have hstep : iptAppendLoop modelIpt t c (rs :: rest) s =
            iptAppendLoop modelIpt t c rest
              { s with chains := assocSet s.chains (t, c) (rules₀ ++ [rs]) } := by
          rw [iptAppendLoop, happ]
        rw [hstep, ih _ _ hg₁, appendAll_cons, if_neg hin]
        simp [assocSet_assocSet_self]

/-- The delete loop over the model engine on an existing chain: always returns
nil (absent specs answer with the benign status-2 "Bad rule" error) and leaves
the chain holding `eraseAll rules₀ rss`. -/
theorem modelIpt_deleteLoop_chain (t c : String) :
    ∀ (rss : List (List String)) (s : ModelState) (rules₀ : List (List String)),
      assocGet s.chains (t, c) = some rules₀ →
      iptDeleteLoop modelIpt t c rss s =
        (.ok none, { s with chains := assocSet s.chains (t, c) (eraseAll rules₀ rss) }) := by
  intro rss
  induction rss with
  | nil =>
      intro s rules₀ hg
      show ((Outcome.ok none : Outcome (Option GoErr)), s) = _
      rw [show eraseAll rules₀ [] = rules₀ from rfl, assocSet_self_of_get hg]
  | cons rs rest ih =>
      intro s rules₀ hg
      by_cases hin : rs ∈ rules₀
      · have hdel : modelIpt.delete t c rs s =
            (none, { s with chains := assocSet s.chains (t, c) (rules₀.erase rs) }) := by
          simp [modelIpt, hg, hin]
        have hg₁ : assocGet
            ({ s with chains := assocSet s.chains (t, c) (rules₀.erase rs) } : ModelState).chains
            (t, c) = some (rules₀.erase rs) :=
          assocGet_assocSet_self _ _ _
        have hstep : iptDeleteLoop modelIpt t c (rs :: rest) s =
            iptDeleteLoop modelIpt t c rest
              { s with chains := assocSet s.chains (t, c) (rules₀.erase rs) } := by
          rw [iptDeleteLoop, hdel]
        rw [hstep, ih _ _ hg₁, eraseAll_cons]
        simp [assocSet_assocSet_self]
      · have hdel : modelIpt.delete t c rs s = (some iptErrBadRule, s) := by
          simp [modelIpt, hg, hin]
        have hstep : iptDeleteLoop modelIpt t c (rs :: rest) s =
            iptDeleteLoop modelIpt t c rest s := by
          rw [iptDeleteLoop, hdel]
          rfl
        rw [hstep, ih s rules₀ hg, eraseAll_cons, List.erase_of_not_mem hin]

/-- The delete loop over the model engine with the chain absent: every delete
answers with the benign status-1 "No chain/target/match" error, so the loop
returns nil and never touches the state. -/
theorem modelIpt_deleteLoop_nochain (t c : String) :
    ∀ (rss : List (List String)) (s : ModelState),
      assocGet s.chains (t, c) = none →
      iptDeleteLoop modelIpt t c rss s = (.ok none, s) := by
  intro rss
  induction rss with
  | nil => intro s _; rfl
  | cons rs rest ih =>
      intro s hg
      have hdel : modelIpt.delete t c rs s = (some iptErrNoChain, s) := by
        simp [modelIpt, hg]
      have hstep : iptDeleteLoop modelIpt t c (rs :: rest) s =
          iptDeleteLoop modelIpt t c rest s := by
        rw [iptDeleteLoop, hdel]
        rfl
      rw [hstep, ih s hg]

/-- Enabled `Ensure` on the model engine with the chain already present:
NewChain answers the benign status-1 "Chain already exists." error, then the
rule specs are appended uniquely. -/
theorem modelIptCfg_Ensure_true_present (t c : String) (d : Bool)
    (rss : List (List String)) (s : ModelState) (rules₀ : List (List String))
    (hg : assocGet s.chains (t, c) = some rules₀) :
    (mkModelIptCfg t c d rss).Ensure true s =
      (.ok none, { s with chains := assocSet s.chains (t, c) (appendAll rules₀ rss) }) := by
  have hnew : modelIpt.newChain t c s = (some iptErrChainExists, s) := by
    simp [modelIpt, hg]
  have hspec : (mkModelIptCfg t c d rss).spec.ensure true s = (none, s) := by
    unfold IPTablesChainSpec.ensure
    rw [show (mkModelIptCfg t c d rss).spec.ipt = modelIpt from rfl]
    rw [show (mkModelIptCfg t c d rss).spec.tableName = t from rfl]
    rw [show (mkModelIptCfg t c d rss).spec.chainName = c from rfl]
    rw [hnew]
    rfl
  have hE : (mkModelIptCfg t c d rss).Ensure true s =
      (match iptAppendLoop modelIpt t c rss s with
       | (e, s'') => ((Outcome.ok e : Outcome (Option GoErr)), s'')) := by
    unfold IPTablesRuleConfig.Ensure
    rw [hspec]
    rfl
  rw [hE, modelIpt_appendLoop t c rss s rules₀ hg]

/-- Enabled `Ensure` on the model engine with the chain absent: NewChain
creates the empty chain, then the rule specs are appended uniquely. -/
theorem modelIptCfg_Ensure_true_absent (t c : String) (d : Bool)
    (rss : List (List String)) (s : ModelState)
    (hg : assocGet s.chains (t, c) = none) :
    (mkModelIptCfg t c d rss).Ensure true s =
      (.ok none, { s with chains := assocSet s.chains (t, c) (appendAll [] rss) }) := by
  have hnew : modelIpt.newChain t c s =
      (none, { s with chains := assocSet s.chains (t, c) [] }) := by
    simp [modelIpt, hg]
  have hspec : (mkModelIptCfg t c d rss).spec.ensure true s =
      (none, { s with chains := assocSet s.chains (t, c) [] }) := by
    unfold IPTablesChainSpec.ensure
    rw [show (mkModelIptCfg t c d rss).spec.ipt = modelIpt from rfl]
    rw [show (mkModelIptCfg t c d rss).spec.tableName = t from rfl]
    rw [show (mkModelIptCfg t c d rss).spec.chainName = c from rfl]
    rw [hnew]
    rfl
  have hg₁ : assocGet
      ({ s with chains := assocSet s.chains (t, c) [] } : ModelState).chains
      (t, c) = some [] :=
    assocGet_assocSet_self _ _ _
  have hE : (mkModelIptCfg t c d rss).Ensure true s =
      (match iptAppendLoop modelIpt t c rss { s with chains := assocSet s.chains (t, c) [] } with
       | (e, s'') => ((Outcome.ok e : Outcome (Option GoErr)), s'')) := by
    unfold IPTablesRuleConfig.Ensure
    rw [hspec]
    rfl
  rw [hE, modelIpt_appendLoop t c rss _ [] hg₁]
  simp [assocSet_assocSet_self]

/-- Disabled `Ensure` on the model engine for a non-default chain: ClearChain
creates-or-flushes the chain, DeleteChain removes it; the chain ends absent. -/
theorem modelIptCfg_Ensure_false_nondefault (t c : String)
    (rss : List (List String)) (s : ModelState) :
    (mkModelIptCfg t c false rss).Ensure false s =
      (.ok none, { s with chains := assocRemove s.chains (t, c) }) := by
  have hg₁ : assocGet
      ({ s with chains := assocSet s.chains (t, c) [] } : ModelState).chains
      (t, c) = some [] :=
    assocGet_assocSet_self _ _ _
  have hdel : modelIpt.deleteChain t c
      ({ s with chains := assocSet s.chains (t, c) [] } : ModelState) =
      (none, { s with chains := assocRemove (assocSet s.chains (t, c) []) (t, c) }) := by
    simp [modelIpt, hg₁]
  have hclear : modelIpt.clearChain t c s =
      (none, { s with chains := assocSet s.chains (t, c) [] }) := rfl
  have hspec : (mkModelIptCfg t c false rss).spec.ensure false s =
      (none, { s with chains := assocRemove (assocSet s.chains (t, c) []) (t, c) }) := by
    unfold IPTablesChainSpec.ensure
    simp [mkModelIptCfg, hclear, hdel]
  have hE : (mkModelIptCfg t c false rss).Ensure false s =
      ((Outcome.ok none : Outcome (Option GoErr)),
        { s with chains := assocRemove (assocSet s.chains (t, c) []) (t, c) }) := by
    unfold IPTablesRuleConfig.Ensure
    rw [hspec]
    rfl
  rw [hE, assocRemove_assocSet]

/-- Disabled `Ensure` on the model engine for a default chain that exists: the
chain itself is untouched; each rule spec is deleted from it. -/
theorem modelIptCfg_Ensure_false_default_present (t c : String)
    (rss : List (List String)) (s : ModelState) (rules₀ : List (List String))
    (hg : assocGet s.chains (t, c) = some rules₀) :
    (mkModelIptCfg t c true rss).Ensure false s =
      (.ok none, { s with chains := assocSet s.chains (t, c) (eraseAll rules₀ rss) }) := by
  have hspec : (mkModelIptCfg t c true rss).spec.ensure false s = (none, s) := rfl
  have hE : (mkModelIptCfg t c true rss).Ensure false s =
      iptDeleteLoop modelIpt t c rss s := by
    unfold IPTablesRuleConfig.Ensure
    rw [hspec]
    rfl
  rw [hE]
  exact modelIpt_deleteLoop_chain t c rss s rules₀ hg

/-- Disabled `Ensure` on the model engine for a default chain that is absent:
every delete answers benignly and nothing changes. -/
theorem modelIptCfg_Ensure_false_default_absent (t c : String)
    (rss : List (List String)) (s : ModelState)
    (hg : assocGet s.chains (t, c) = none) :
    (mkModelIptCfg t c true rss).Ensure false s = (.ok none, s) := by
  have hspec : (mkModelIptCfg t c true rss).spec.ensure false s = (none, s) := rfl
  have hE : (mkModelIptCfg t c true rss).Ensure false s =
      iptDeleteLoop modelIpt t c rss s := by
    unfold IPTablesRuleConfig.Ensure
    rw [hspec]
    rfl
  rw [hE]
  exact modelIpt_deleteLoop_nochain t c rss s hg

/-- `os.IsExist` holds for the `EEXIST` errno. -/
theorem osIsExist_eexist : osIsExist (some (.errno EEXIST)) = true := rfl

/-- C7: for every Config variant (at the model kernel/tooling semantics) and
every boolean `b`, if `Ensure(b)` succeeds from a well-formed kernel state then
running `Ensure(b)` again returns no error and leaves the state exactly as the
first call left it. -/
theorem claim_C7_ensure_idempotent (cfg : ModelConfig) (b : Bool)
    (s s' : ModelState) (hwf : WFState s)
    (h : ensureModel cfg b s = (.ok none, s')) :
    ensureModel cfg b s' = (.ok none, s') := by
  cases cfg with
  | sysctl k v dv =>
      have hE : ∀ (u : ModelState), ensureModel (.sysctl k v dv) b u =
          (.ok none, { u with sysctls := assocSet u.sysctls k (if b then v else dv) }) := by
        intro u
        cases b <;> rfl
      rw [hE s, Prod.mk.injEq] at h
      obtain ⟨-, hs⟩ := h
      subst hs
      rw [hE]
      simp [assocSet_assocSet_self]
  | route r =>
      cases b with
      | true =>
          by_cases hmem : r ∈ s.routes
          · have hE : ensureModel (.route r) true s = (.ok none, s) := by
              show (mkModelRouteConfig r).Ensure true s = _
              simp [mkModelRouteConfig, IPRouteConfig.Ensure, hmem, osIsExist_eexist]
            rw [hE] at h
            have hs : s = s' := congrArg Prod.snd h
            subst hs
            exact hE
          · have hE : ensureModel (.route r) true s =
                (.ok none, { s with routes := s.routes ++ [r] }) := by
              show (mkModelRouteConfig r).Ensure true s = _
              simp [mkModelRouteConfig, IPRouteConfig.Ensure, hmem, osIsExist_eexist]
            rw [hE] at h
            have hs : ({ s with routes := s.routes ++ [r] } : ModelState) = s' :=
              congrArg Prod.snd h
            subst hs
            have hmem' : r ∈ ({ s with routes := s.routes ++ [r] } : ModelState).routes := by
              simp
            show (mkModelRouteConfig r).Ensure true _ = _
            simp [mkModelRouteConfig, IPRouteConfig.Ensure, hmem', osIsExist_eexist]
      | false =>
          by_cases hmem : r ∈ s.routes
          · have hE : ensureModel (.route r) false s =
                (.ok none, { s with routes := s.routes.erase r }) := by
              show (mkModelRouteConfig r).Ensure false s = _
              simp [mkModelRouteConfig, IPRouteConfig.Ensure, hmem]
            rw [hE] at h
            have hs : ({ s with routes := s.routes.erase r } : ModelState) = s' :=
              congrArg Prod.snd h
            subst hs
            have hmem' : r ∉ ({ s with routes := s.routes.erase r } : ModelState).routes :=
              hwf.routesNodup.not_mem_erase
            show (mkModelRouteConfig r).Ensure false _ = _
            simp [mkModelRouteConfig, IPRouteConfig.Ensure, hmem', ESRCH]
          · have hE : ensureModel (.route r) false s = (.ok none, s) := by
              show (mkModelRouteConfig r).Ensure false s = _
              simp [mkModelRouteConfig, IPRouteConfig.Ensure, hmem, ESRCH]
            rw [hE] at h
            have hs : s = s' := congrArg Prod.snd h
            subst hs
            exact hE
  | ipRule ru =>
      have hwrap : ∀ (ec : Nat) (u : ModelState) (e : Option GoErr) (u' : ModelState),
          (mkModelRuleConfig ru).ensureHelper ec u = (e, u') →
          (match (mkModelRuleConfig ru).ensureHelper ec u with
           | (e, s₁) => ((Outcome.ok e : Outcome (Option GoErr)), s₁)) = (.ok e, u') := by
        intro ec u e u' hh
        rw [hh]
      cases b with
      | true =>
          obtain ⟨s₁, h1, h2, _⟩ := modelRule_ensureHelper ru 1 s
          have hE : ensureModel (.ipRule ru) true s = (.ok none, s₁) := hwrap 1 s none s₁ h1
          rw [hE] at h
          have hs : s₁ = s' := congrArg Prod.snd h
          subst hs
          obtain ⟨s₂, g1, _, g3⟩ := modelRule_ensureHelper ru 1 s₁
          have hs₂ : s₂ = s₁ := g3 h2
          rw [hs₂] at g1
          exact hwrap 1 s₁ none s₁ g1
      | false =>
          obtain ⟨s₁, h1, h2, _⟩ := modelRule_ensureHelper ru 0 s
          have hE : ensureModel (.ipRule ru) false s = (.ok none, s₁) := hwrap 0 s none s₁ h1
          rw [hE] at h
          have hs : s₁ = s' := congrArg Prod.snd h
          subst hs
          obtain ⟨s₂, g1, _, g3⟩ := modelRule_ensureHelper ru 0 s₁
          have hs₂ : s₂ = s₁ := g3 h2
          rw [hs₂] at g1
          exact hwrap 0 s₁ none s₁ g1
  | iptRule t c d rss =>
      have hcast : ∀ (b' : Bool) (u : ModelState), ensureModel (.iptRule t c d rss) b' u =
          (mkModelIptCfg t c d rss).Ensure b' u := fun _ _ => rfl
      cases b with
      | true =>
          rcases hg : assocGet s.chains (t, c) with _ | rules₀
          · -- chain absent: created, then the specs are appended
            have hE := modelIptCfg_Ensure_true_absent t c d rss s hg
            rw [hcast true s, hE, Prod.mk.injEq] at h
            obtain ⟨-, hs⟩ := h
            subst hs
            have hg' : assocGet
                ({ s with chains := assocSet s.chains (t, c) (appendAll [] rss) } :
                  ModelState).chains (t, c) = some (appendAll [] rss) :=
              assocGet_assocSet_self _ _ _
            have h2 := modelIptCfg_Ensure_true_present t c d rss _ _ hg'
            rw [hcast true _, h2]
            have happ : appendAll (appendAll [] rss) rss = appendAll [] rss :=
              appendAll_of_all_mem (fun rs hrs => mem_appendAll_of_mem_arg rs hrs)
            simp [happ, assocSet_assocSet_self]
          · -- chain present: benign NewChain error, then the specs are appended
            have hE := modelIptCfg_Ensure_true_present t c d rss s rules₀ hg
            rw [hcast true s, hE, Prod.mk.injEq] at h
            obtain ⟨-, hs⟩ := h
            subst hs
            have hg' : assocGet
                ({ s with chains := assocSet s.chains (t, c) (appendAll rules₀ rss) } :
                  ModelState).chains (t, c) = some (appendAll rules₀ rss) :=
              assocGet_assocSet_self _ _ _
            have h2 := modelIptCfg_Ensure_true_present t c d rss _ _ hg'
            rw [hcast true _, h2]
            have happ : appendAll (appendAll rules₀ rss) rss = appendAll rules₀ rss :=
              appendAll_of_all_mem (fun rs hrs => mem_appendAll_of_mem_arg rs hrs)
            simp [happ, assocSet_assocSet_self]
      | false =>
          cases d with
          | false =>
              have hE := modelIptCfg_Ensure_false_nondefault t c rss s
              rw [hcast false s, hE, Prod.mk.injEq] at h
              obtain ⟨-, hs⟩ := h
              subst hs
              have h2 := modelIptCfg_Ensure_false_nondefault t c rss
                { s with chains := assocRemove s.chains (t, c) }
              rw [hcast false _, h2]
              have hnone : assocGet
                  ({ s with chains := assocRemove s.chains (t, c) } : ModelState).chains
                  (t, c) = none :=
                assocGet_assocRemove_self hwf.chainKeysNodup
              simp [assocRemove_of_get_none hnone]
          | true =>
              rcases hg : assocGet s.chains (t, c) with _ | rules₀
              · have hE := modelIptCfg_Ensure_false_default_absent t c rss s hg
                rw [hcast false s, hE] at h
                have hs : s = s' := congrArg Prod.snd h
                subst hs
                rw [hcast false s]
                exact modelIptCfg_Ensure_false_default_absent t c rss s hg
              · have hnd : rules₀.Nodup := hwf.chainRulesNodup _ _ hg
                have hE := modelIptCfg_Ensure_false_default_present t c rss s rules₀ hg
                rw [hcast false s, hE, Prod.mk.injEq] at h
                obtain ⟨-, hs⟩ := h
                subst hs
                have hg' : assocGet
                    ({ s with chains := assocSet s.chains (t, c) (eraseAll rules₀ rss) } :
                      ModelState).chains (t, c) = some (eraseAll rules₀ rss) :=
                  assocGet_assocSet_self _ _ _
                have h2 := modelIptCfg_Ensure_false_default_present t c rss _ _ hg'
                rw [hcast false _, h2]
                have hera : eraseAll (eraseAll rules₀ rss) rss = eraseAll rules₀ rss :=
                  eraseAll_of_all_not_mem (fun rs hrs => notMem_eraseAll hnd rs hrs)
                simp [hera, assocSet_assocSet_self]

/-- The empty, well-formed model state. -/
def s0 : ModelState := ⟨[], [], [], []⟩

/-- Witness for C7: ensuring a concrete route into the empty state succeeds,
and ensuring it again returns no error and changes nothing. -/
theorem claim_C7_ensure_idempotent_witness :
    ensureModel (.route c4Route) true ({ s0 with routes := [c4Route] }) =
      (.ok none, { s0 with routes := [c4Route] }) := by
  have hwf : WFState s0 :=
    ⟨List.nodup_nil, List.nodup_nil, fun k rules hk => by simp [assocGet] at hk⟩
  exact claim_C7_ensure_idempotent (.route c4Route) true s0
    { s0 with routes := [c4Route] } hwf rfl

end NetdConfig
